import Mathlib

/-!
# Verification of the `nodefertest` analyzer

A shallow embedding of `nodefertest.go`, the static-analysis pass that flags
`defer` statements inside Go test/benchmark functions, together with proofs
of the specified properties.

The embedding mirrors the Go source:

* `Expr`, `Stmt` model the fragment of `go/ast` the analyzer visits.  Function
  literals carry a `FuncLitType` modelling the (nil-able) `Type`/`Type.Params`
  fields, and a body.  List structure is encoded with dedicated mutual
  inductives (`ExprList`, `StmtList`, `CaseList`) so that all recursion is
  plainly structural.
* `FuncDecl` models `*ast.FuncDecl`: a name, a nil-able parameter field list
  (`funcDecl.Type.Params`), and a nil-able body (`funcDecl.Body`).
* `isTestFunction`, `hasTestingTParam`, `hasFuncLitTestingTParam` are the
  three predicates of the source, translated clause by clause.
* `inspectStmt` and friends model the `ast.Inspect` callback of
  `checkDeferInTestFunc`: a defer statement is reported (at the position of
  its `defer` keyword) and then its call expression is still descended into;
  a function literal is recursed into iff `hasFuncLitTestingTParam` holds,
  and is otherwise skipped entirely (the callback returns `false`);
  every other node is transparent.
* `checkDeferInTestFunc` takes the nil-able body; `ast.Inspect` on a nil
  `*ast.BlockStmt` dereferences the nil pointer, which is modelled as
  `Except.error`.
* `run` iterates over the declarations of a file and invokes the walker on
  exactly the declarations satisfying `isTestFunction && hasTestingTParam`
  (the `ast.Inspect` callback in `run` acts only on `*ast.FuncDecl` nodes,
  and Go has no nested function declarations, so the file-level traversal is
  faithfully a fold over the top-level declarations).
-/

/-- A reported diagnostic: source position plus message
(`pass.Reportf(node.Defer, ...)`). -/
structure Finding where
  pos : Nat
  msg : String
  deriving DecidableEq, Repr

mutual

/-- Go expressions, restricted to the shapes the analyzer discriminates on
(`*ast.StarExpr`, `*ast.SelectorExpr`, `*ast.Ident`, `*ast.FuncLit`) plus
transparent carriers (calls, literals, unary/binary operations). -/
inductive Expr : Type where
  | ident (name : String) : Expr
  | basicLit (val : String) : Expr
  | selector (x : Expr) (sel : String) : Expr
  | star (x : Expr) : Expr
  | call (fn : Expr) (args : ExprList) : Expr
  | funcLit (typ : FuncLitType) (body : StmtList) : Expr
  | unary (x : Expr) : Expr
  | binary (l : Expr) (r : Expr) : Expr

/-- A list of expressions (call arguments, assignment sides, field types). -/
inductive ExprList : Type where
  | nil : ExprList
  | cons (e : Expr) (rest : ExprList) : ExprList

/-- The `Type` field of an `*ast.FuncLit`: the pointer itself may be nil
(`nilType`), its `Params` field may be nil (`nilParams`), or there is an
actual field list, represented by the list of the fields' type expressions. -/
inductive FuncLitType : Type where
  | nilType : FuncLitType
  | nilParams : FuncLitType
  | params (ps : ExprList) : FuncLitType

/-- Go statements, restricted to the node kinds relevant to the walk:
`*ast.DeferStmt` (carrying the position of its `defer` keyword and its call
expression), `*ast.GoStmt`, and the transparent compound constructs. -/
inductive Stmt : Type where
  | deferStmt (pos : Nat) (callExpr : Expr) : Stmt
  | goStmt (callExpr : Expr) : Stmt
  | exprStmt (e : Expr) : Stmt
  | assignStmt (lhs : ExprList) (rhs : ExprList) : Stmt
  | ifStmt (cond : Expr) (thenBody : StmtList) (elseBody : StmtList) : Stmt
  | forStmt (body : StmtList) : Stmt
  | switchStmt (cases : CaseList) : Stmt
  | selectStmt (cases : CaseList) : Stmt
  | blockStmt (body : StmtList) : Stmt
  | returnStmt (results : ExprList) : Stmt

/-- A list of statements (a block's contents). -/
inductive StmtList : Type where
  | nil : StmtList
  | cons (s : Stmt) (rest : StmtList) : StmtList

/-- The clause bodies of a switch/select statement. -/
inductive CaseList : Type where
  | nil : CaseList
  | cons (body : StmtList) (rest : CaseList) : CaseList

end

/-- A top-level `*ast.FuncDecl`: name, the nil-able `Type.Params` field list
(as the list of the fields' type expressions), and the nil-able `Body`. -/
structure FuncDecl where
  name : String
  params : Option ExprList
  body : Option StmtList

/-- One iteration of the parameter loop shared by `hasTestingTParam` and
`hasFuncLitTestingTParam`: the field type must be a `*ast.StarExpr` over a
`*ast.SelectorExpr` whose `X` is an `*ast.Ident` named `testing` selecting
`T` or `B`; every other shape falls through (`continue`). -/
def isTestingTBType : Expr → Bool
  | Expr.star (Expr.selector (Expr.ident pkg) sel) =>
      pkg == "testing" && (sel == "T" || sel == "B")
  | _ => false

/-- The `for _, field := range params.List` loop of the Go source:
true iff some field's type satisfies `isTestingTBType`. -/
def anyTestingTB : ExprList → Bool
  | ExprList.nil => false
  | ExprList.cons e rest => isTestingTBType e || anyTestingTB rest

/-- `hasTestingTParam` from the source: nil or empty parameter list returns
false, otherwise scan the fields. -/
def hasTestingTParam (d : FuncDecl) : Bool :=
  match d.params with
  | none => false
  | some ExprList.nil => false
  | some ps => anyTestingTB ps

/-- `hasFuncLitTestingTParam` from the source: nil `Type` or nil
`Type.Params` returns false, otherwise scan the fields. -/
def hasFuncLitTestingTParam (typ : FuncLitType) : Bool :=
  match typ with
  | FuncLitType.nilType => false
  | FuncLitType.nilParams => false
  | FuncLitType.params ps => anyTestingTB ps

/-- `isTestFunction` from the source: `len(name) > 4 && name[:4] == "Test"`
or `len(name) > 9 && name[:9] == "Benchmark"`.  Go slices bytes; since both
prefixes are ASCII this agrees with slicing the character list. -/
def isTestFunction (d : FuncDecl) : Bool :=
  (decide (4 < d.name.toList.length) && decide (d.name.toList.take 4 = "Test".toList)) ||
    (decide (9 < d.name.toList.length) && decide (d.name.toList.take 9 = "Benchmark".toList))

/-- The constant diagnostic message of `pass.Reportf`. -/
def deferMessage : String :=
  "use t.Cleanup() instead of defer in test functions to ensure cleanup runs even after t.Fatal/t.FailNow"

mutual

/-- The `ast.Inspect` callback of `checkDeferInTestFunc` at a statement:
a `DeferStmt` emits one finding at its `defer` keyword and the walk continues
into its call expression (the callback returns `true`); all compound
statements are transparent. -/
def inspectStmt : Stmt → List Finding
  | Stmt.deferStmt pos callExpr => ⟨pos, deferMessage⟩ :: inspectExpr callExpr
  | Stmt.goStmt callExpr => inspectExpr callExpr
  | Stmt.exprStmt e => inspectExpr e
  | Stmt.assignStmt lhs rhs => inspectExprList lhs ++ inspectExprList rhs
  | Stmt.ifStmt cond thenBody elseBody =>
      inspectExpr cond ++ inspectStmtList thenBody ++ inspectStmtList elseBody
  | Stmt.forStmt body => inspectStmtList body
  | Stmt.switchStmt cases => inspectCaseList cases
  | Stmt.selectStmt cases => inspectCaseList cases
  | Stmt.blockStmt body => inspectStmtList body
  | Stmt.returnStmt results => inspectExprList results

/-- The callback at an expression: a `FuncLit` is recursed into iff
`hasFuncLitTestingTParam` holds, and otherwise skipped entirely (the
callback returns `false`); all other expressions are transparent. -/
def inspectExpr : Expr → List Finding
  | Expr.ident _ => []
  | Expr.basicLit _ => []
  | Expr.selector x _ => inspectExpr x
  | Expr.star x => inspectExpr x
  | Expr.call fn args => inspectExpr fn ++ inspectExprList args
  | Expr.funcLit typ body =>
      if hasFuncLitTestingTParam typ then inspectStmtList body else []
  | Expr.unary x => inspectExpr x
  | Expr.binary l r => inspectExpr l ++ inspectExpr r

/-- Walk a statement list in order. -/
def inspectStmtList : StmtList → List Finding
  | StmtList.nil => []
  | StmtList.cons s rest => inspectStmt s ++ inspectStmtList rest

/-- Walk an expression list in order. -/
def inspectExprList : ExprList → List Finding
  | ExprList.nil => []
  | ExprList.cons e rest => inspectExpr e ++ inspectExprList rest

/-- Walk the clause bodies of a switch/select in order. -/
def inspectCaseList : CaseList → List Finding
  | CaseList.nil => []
  | CaseList.cons body rest => inspectStmtList body ++ inspectCaseList rest

end

/-- The Go panic raised by `ast.Inspect` when handed a nil `*ast.BlockStmt`
(the `Walk` case for block statements reads `n.List` from the nil pointer). -/
def nilDereferenceMessage : String :=
  "runtime error: invalid memory address or nil pointer dereference"

/-- `checkDeferInTestFunc` from the source, applied to the nil-able
`funcDecl.Body`: `ast.Inspect` on a nil `*ast.BlockStmt` dereferences the
nil pointer (`n.List` on a nil receiver), modelled as an error; on a real
block it returns the findings of the walk in emission order. -/
def checkDeferInTestFunc (body : Option StmtList) : Except String (List Finding) :=
  match body with
  | none => Except.error nilDereferenceMessage
  | some stmts => Except.ok (inspectStmtList stmts)

/-- The per-declaration step of `run`: the walker is invoked on the body iff
`isTestFunction(funcDecl) && hasTestingTParam(funcDecl)`; otherwise the
callback just returns `true` and, since it acts on no other node kind,
produces nothing. -/
def runDecl (d : FuncDecl) : Except String (List Finding) :=
  if isTestFunction d && hasTestingTParam d then checkDeferInTestFunc d.body
  else Except.ok []

/-- `run` from the source over one file: the `ast.Inspect` callback in `run`
acts only on `*ast.FuncDecl` nodes, so the file traversal is a fold over the
top-level declarations, concatenating their findings (a Go panic aborts the
whole pass, hence the `Except` short-circuit). -/
def run : List FuncDecl → Except String (List Finding)
  | [] => Except.ok []
  | d :: rest =>
      match runDecl d with
      | Except.error e => Except.error e
      | Except.ok fs =>
          match run rest with
          | Except.error e => Except.error e
          | Except.ok rfs => Except.ok (fs ++ rfs)

/-! ## Specification-side predicates

These definitions follow the wording of the specification (sections 3, 4.1
and 4.2), to be compared with the predicates translated from the source. -/

/-- `TestContextParameterShape` from the spec: the parameter's type is a
pointer to the type `T` or `B` selected from the package identifier
`testing`. -/
def specTestContextParamShape (e : Expr) : Prop :=
  ∃ sel, e = Expr.star (Expr.selector (Expr.ident "testing") sel) ∧
    (sel = "T" ∨ sel = "B")

/-- Spec signature rule: at least one parameter of the field list satisfies
`specTestContextParamShape`. -/
def specAnyShape : ExprList → Prop
  | ExprList.nil => False
  | ExprList.cons e rest => specTestContextParamShape e ∨ specAnyShape rest

/-- Spec name rule (4.1): the name begins with the literal `Test` or
`Benchmark` followed by at least one further character. -/
def specNameRule (name : String) : Prop :=
  ("Test".toList <+: name.toList ∧ 4 < name.toList.length) ∨
    ("Benchmark".toList <+: name.toList ∧ 9 < name.toList.length)

/-- Spec signature rule lifted to the nil-able parameter list: an absent
list has no qualifying parameter. -/
def specParamRule : Option ExprList → Prop
  | none => False
  | some ps => specAnyShape ps

mutual

/-- Spec-side count (section 8): the number of deferred-execution statements
lexically reachable through transparent control constructs, where a nested
anonymous function counts its own body iff it qualifies as a nested test
context and contributes nothing otherwise. -/
def specCountStmt : Stmt → Nat
  | Stmt.deferStmt _ callExpr => 1 + specCountExpr callExpr
  | Stmt.goStmt callExpr => specCountExpr callExpr
  | Stmt.exprStmt e => specCountExpr e
  | Stmt.assignStmt lhs rhs => specCountExprList lhs + specCountExprList rhs
  | Stmt.ifStmt cond thenBody elseBody =>
      specCountExpr cond + specCountStmtList thenBody + specCountStmtList elseBody
  | Stmt.forStmt body => specCountStmtList body
  | Stmt.switchStmt cases => specCountCaseList cases
  | Stmt.selectStmt cases => specCountCaseList cases
  | Stmt.blockStmt body => specCountStmtList body
  | Stmt.returnStmt results => specCountExprList results

/-- Spec-side count over expressions. -/
def specCountExpr : Expr → Nat
  | Expr.ident _ => 0
  | Expr.basicLit _ => 0
  | Expr.selector x _ => specCountExpr x
  | Expr.star x => specCountExpr x
  | Expr.call fn args => specCountExpr fn + specCountExprList args
  | Expr.funcLit typ body =>
      if hasFuncLitTestingTParam typ then specCountStmtList body else 0
  | Expr.unary x => specCountExpr x
  | Expr.binary l r => specCountExpr l + specCountExpr r

/-- Spec-side count over statement lists. -/
def specCountStmtList : StmtList → Nat
  | StmtList.nil => 0
  | StmtList.cons s rest => specCountStmt s + specCountStmtList rest

/-- Spec-side count over expression lists. -/
def specCountExprList : ExprList → Nat
  | ExprList.nil => 0
  | ExprList.cons e rest => specCountExpr e + specCountExprList rest

/-- Spec-side count over switch/select clauses. -/
def specCountCaseList : CaseList → Nat
  | CaseList.nil => 0
  | CaseList.cons body rest => specCountStmtList body + specCountCaseList rest

end

/-- Concatenation of statement lists (used to place a literal in an
arbitrary surrounding context). -/
def StmtList.append : StmtList → StmtList → StmtList
  | StmtList.nil, t => t
  | StmtList.cons s rest, t => StmtList.cons s (StmtList.append rest t)

/-! ## Concrete fixture programs -/

/-- The type expression `*testing.T`. -/
def tParamType : Expr := Expr.star (Expr.selector (Expr.ident "testing") "T")

/-- The call expression `cleanup()`. -/
def cleanupCall : Expr := Expr.call (Expr.ident "cleanup") ExprList.nil

/-- A field list consisting of the single field `t *testing.T`. -/
def tParamList : ExprList := ExprList.cons tParamType ExprList.nil

/-- The signature `func(t *testing.T)` of a function literal. -/
def tParamLitType : FuncLitType := FuncLitType.params tParamList

/-- The literal `func(t *testing.T) { defer cleanup() }` with the `defer`
keyword at position 3. -/
def qualifyingLitWithDefer : Expr :=
  Expr.funcLit tParamLitType
    (StmtList.cons (Stmt.deferStmt 3 cleanupCall) StmtList.nil)

/-- `func Helper(t *testing.T) { fn(func(t *testing.T) { defer cleanup() }) }`:
a declaration without a recognized prefix whose body contains a qualifying
literal with a deferred statement. -/
def c1HelperDecl : FuncDecl :=
  ⟨"Helper", some tParamList,
    some (StmtList.cons
      (Stmt.exprStmt (Expr.call (Expr.ident "fn")
        (ExprList.cons qualifyingLitWithDefer ExprList.nil)))
      StmtList.nil)⟩

/-- `func Helper(t *testing.T) { defer cleanup() }` (spec scenario F). -/
def helperDeferDecl : FuncDecl :=
  ⟨"Helper", some tParamList,
    some (StmtList.cons (Stmt.deferStmt 1 cleanupCall) StmtList.nil)⟩

/-- `func TestFoo(t *testing.T) { t.Run("x", func(t *testing.T) { defer cleanup() }) }`
with the inner `defer` keyword at `pos` (spec scenario D). -/
def subtestDecl (pos : Nat) : FuncDecl :=
  ⟨"TestFoo", some tParamList,
    some (StmtList.cons
      (Stmt.exprStmt (Expr.call (Expr.selector (Expr.ident "t") "Run")
        (ExprList.cons (Expr.basicLit "x")
          (ExprList.cons
            (Expr.funcLit tParamLitType
              (StmtList.cons (Stmt.deferStmt pos cleanupCall) StmtList.nil))
            ExprList.nil))))
      StmtList.nil)⟩

/-- `func TestNoBody(t *testing.T)`: a qualifying declaration whose body is
absent (nil), as for a function implemented outside Go. -/
def noBodyDecl : FuncDecl := ⟨"TestNoBody", some tParamList, none⟩

/-- `func TestFoo(t *testing.T) { defer cleanup() }` (spec scenario A). -/
def testFooDecl : FuncDecl :=
  ⟨"TestFoo", some tParamList,
    some (StmtList.cons (Stmt.deferStmt 1 cleanupCall) StmtList.nil)⟩

/-! ## Helper lemmas -/

/-- The parameter-shape test of the source agrees with the spec's
`TestContextParameterShape`. -/
theorem isTestingTBType_iff (e : Expr) :
    isTestingTBType e = true ↔ specTestContextParamShape e := by
  constructor
  · intro h
    unfold isTestingTBType at h
    split at h
    · rename_i pkg sel
      simp only [Bool.and_eq_true, Bool.or_eq_true, beq_iff_eq] at h
      exact ⟨sel, by rw [h.1], h.2⟩
    · simp at h
  · rintro ⟨sel, rfl, hsel⟩
    rcases hsel with rfl | rfl <;> decide

/-- The parameter loop of the source agrees with the spec's "at least one
parameter satisfies the shape". -/
theorem anyTestingTB_iff : (ps : ExprList) → (anyTestingTB ps = true ↔ specAnyShape ps)
  | ExprList.nil => by simp [anyTestingTB, specAnyShape]
  | ExprList.cons e rest => by
      simp [anyTestingTB, specAnyShape, Bool.or_eq_true, isTestingTBType_iff e,
        anyTestingTB_iff rest]

/-- Taking an `n`-character slice equals a word of length `n` iff the word is
a prefix. -/
theorem take_eq_iff_isPrefix (l p : List Char) (n : Nat) (hn : p.length = n) :
    l.take n = p ↔ p <+: l := by
  subst hn
  rw [List.prefix_iff_eq_take]
  exact eq_comm

/-- `isTestFunction` agrees with the spec's name rule. -/
theorem isTestFunction_iff (d : FuncDecl) :
    isTestFunction d = true ↔ specNameRule d.name := by
  have ht : d.name.toList.take 4 = "Test".toList ↔ "Test".toList <+: d.name.toList :=
    take_eq_iff_isPrefix _ _ 4 rfl
  have hb : d.name.toList.take 9 = "Benchmark".toList ↔ "Benchmark".toList <+: d.name.toList :=
    take_eq_iff_isPrefix _ _ 9 rfl
  unfold isTestFunction specNameRule
  simp only [Bool.or_eq_true, Bool.and_eq_true, decide_eq_true_eq]
  rw [ht, hb]
  tauto

/-- `hasTestingTParam` agrees with the spec's signature rule. -/
theorem hasTestingTParam_iff (d : FuncDecl) :
    hasTestingTParam d = true ↔ specParamRule d.params := by
  cases hp : d.params with
  | none => simp [hasTestingTParam, specParamRule, hp]
  | some ps =>
      cases ps with
      | nil => simp [hasTestingTParam, specParamRule, hp, specAnyShape]
      | cons e rest =>
          simp [hasTestingTParam, specParamRule, hp, anyTestingTB_iff]

/-- A declaration failing the entry-point test is skipped by `run`. -/
theorem runDecl_skip (d : FuncDecl) (h : (isTestFunction d && hasTestingTParam d) = false) :
    runDecl d = Except.ok [] := by
  unfold runDecl
  rw [h]
  rfl

/-- The walk distributes over concatenation of statement lists. -/
theorem inspectStmtList_append : (a b : StmtList) →
    inspectStmtList (StmtList.append a b) = inspectStmtList a ++ inspectStmtList b
  | StmtList.nil, b => by simp [StmtList.append, inspectStmtList]
  | StmtList.cons s rest, b => by
      simp [StmtList.append, inspectStmtList, inspectStmtList_append rest b]

mutual

/-- The walk emits exactly the spec-side count of findings: statements. -/
theorem length_inspectStmt : (s : Stmt) → (inspectStmt s).length = specCountStmt s
  | Stmt.deferStmt p c => by
      simp [inspectStmt, specCountStmt, length_inspectExpr c]; omega
  | Stmt.goStmt c => by simp [inspectStmt, specCountStmt, length_inspectExpr c]
  | Stmt.exprStmt e => by simp [inspectStmt, specCountStmt, length_inspectExpr e]
  | Stmt.assignStmt l r => by
      simp [inspectStmt, specCountStmt, length_inspectExprList l, length_inspectExprList r]
  | Stmt.ifStmt c t e => by
      simp [inspectStmt, specCountStmt, length_inspectExpr c,
        length_inspectStmtList t, length_inspectStmtList e]
      omega
  | Stmt.forStmt b => by simp [inspectStmt, specCountStmt, length_inspectStmtList b]
  | Stmt.switchStmt cs => by simp [inspectStmt, specCountStmt, length_inspectCaseList cs]
  | Stmt.selectStmt cs => by simp [inspectStmt, specCountStmt, length_inspectCaseList cs]
  | Stmt.blockStmt b => by simp [inspectStmt, specCountStmt, length_inspectStmtList b]
  | Stmt.returnStmt rs => by simp [inspectStmt, specCountStmt, length_inspectExprList rs]

/-- The walk emits exactly the spec-side count of findings: expressions. -/
theorem length_inspectExpr : (e : Expr) → (inspectExpr e).length = specCountExpr e
  | Expr.ident _ => by simp [inspectExpr, specCountExpr]
  | Expr.basicLit _ => by simp [inspectExpr, specCountExpr]
  | Expr.selector x _ => by simp [inspectExpr, specCountExpr, length_inspectExpr x]
  | Expr.star x => by simp [inspectExpr, specCountExpr, length_inspectExpr x]
  | Expr.call fn args => by
      simp [inspectExpr, specCountExpr, length_inspectExpr fn, length_inspectExprList args]
  | Expr.funcLit typ body => by
      by_cases h : hasFuncLitTestingTParam typ = true
      · simp [inspectExpr, specCountExpr, h, length_inspectStmtList body]
      · simp [inspectExpr, specCountExpr, h]
  | Expr.unary x => by simp [inspectExpr, specCountExpr, length_inspectExpr x]
  | Expr.binary l r => by
      simp [inspectExpr, specCountExpr, length_inspectExpr l, length_inspectExpr r]

/-- The walk emits exactly the spec-side count of findings: statement lists. -/
theorem length_inspectStmtList : (b : StmtList) →
    (inspectStmtList b).length = specCountStmtList b
  | StmtList.nil => by simp [inspectStmtList, specCountStmtList]
  | StmtList.cons s rest => by
      simp [inspectStmtList, specCountStmtList, length_inspectStmt s,
        length_inspectStmtList rest]

/-- The walk emits exactly the spec-side count of findings: expression lists. -/
theorem length_inspectExprList : (es : ExprList) →
    (inspectExprList es).length = specCountExprList es
  | ExprList.nil => by simp [inspectExprList, specCountExprList]
  | ExprList.cons e rest => by
      simp [inspectExprList, specCountExprList, length_inspectExpr e,
        length_inspectExprList rest]

/-- The walk emits exactly the spec-side count of findings: case clauses. -/
theorem length_inspectCaseList : (cs : CaseList) →
    (inspectCaseList cs).length = specCountCaseList cs
  | CaseList.nil => by simp [inspectCaseList, specCountCaseList]
  | CaseList.cons b rest => by
      simp [inspectCaseList, specCountCaseList, length_inspectStmtList b,
        length_inspectCaseList rest]

end

mutual

/-- Every finding emitted by the walk carries the constant message:
statements. -/
theorem msg_inspectStmt : (s : Stmt) → ∀ f ∈ inspectStmt s, f.msg = deferMessage
  | Stmt.deferStmt p c => by
      intro f hf
      simp only [inspectStmt, List.mem_cons] at hf
      rcases hf with rfl | hf
      · rfl
      · exact msg_inspectExpr c f hf
  | Stmt.goStmt c => by
      intro f hf
      exact msg_inspectExpr c f (by simpa [inspectStmt] using hf)
  | Stmt.exprStmt e => by
      intro f hf
      exact msg_inspectExpr e f (by simpa [inspectStmt] using hf)
  | Stmt.assignStmt l r => by
      intro f hf
      simp only [inspectStmt, List.mem_append] at hf
      rcases hf with hf | hf
      · exact msg_inspectExprList l f hf
      · exact msg_inspectExprList r f hf
  | Stmt.ifStmt c t e => by
      intro f hf
      simp only [inspectStmt, List.mem_append] at hf
      rcases hf with (hf | hf) | hf
      · exact msg_inspectExpr c f hf
      · exact msg_inspectStmtList t f hf
      · exact msg_inspectStmtList e f hf
  | Stmt.forStmt b => by
      intro f hf
      exact msg_inspectStmtList b f (by simpa [inspectStmt] using hf)
  | Stmt.switchStmt cs => by
      intro f hf
      exact msg_inspectCaseList cs f (by simpa [inspectStmt] using hf)
  | Stmt.selectStmt cs => by
      intro f hf
      exact msg_inspectCaseList cs f (by simpa [inspectStmt] using hf)
  | Stmt.blockStmt b => by
      intro f hf
      exact msg_inspectStmtList b f (by simpa [inspectStmt] using hf)
  | Stmt.returnStmt rs => by
      intro f hf
      exact msg_inspectExprList rs f (by simpa [inspectStmt] using hf)

/-- Every finding emitted by the walk carries the constant message:
expressions. -/
theorem msg_inspectExpr : (e : Expr) → ∀ f ∈ inspectExpr e, f.msg = deferMessage
  | Expr.ident _ => by intro f hf; simp [inspectExpr] at hf
  | Expr.basicLit _ => by intro f hf; simp [inspectExpr] at hf
  | Expr.selector x _ => by
      intro f hf
      exact msg_inspectExpr x f (by simpa [inspectExpr] using hf)
  | Expr.star x => by
      intro f hf
      exact msg_inspectExpr x f (by simpa [inspectExpr] using hf)
  | Expr.call fn args => by
      intro f hf
      simp only [inspectExpr, List.mem_append] at hf
      rcases hf with hf | hf
      · exact msg_inspectExpr fn f hf
      · exact msg_inspectExprList args f hf
  | Expr.funcLit typ body => by
      intro f hf
      by_cases h : hasFuncLitTestingTParam typ = true
      · exact msg_inspectStmtList body f (by simpa [inspectExpr, h] using hf)
      · simp [inspectExpr, h] at hf
  | Expr.unary x => by
      intro f hf
      exact msg_inspectExpr x f (by simpa [inspectExpr] using hf)
  | Expr.binary l r => by
      intro f hf
      simp only [inspectExpr, List.mem_append] at hf
      rcases hf with hf | hf
      · exact msg_inspectExpr l f hf
      · exact msg_inspectExpr r f hf

/-- Every finding emitted by the walk carries the constant message:
statement lists. -/
theorem msg_inspectStmtList : (b : StmtList) → ∀ f ∈ inspectStmtList b, f.msg = deferMessage
  | StmtList.nil => by intro f hf; simp [inspectStmtList] at hf
  | StmtList.cons s rest => by
      intro f hf
      simp only [inspectStmtList, List.mem_append] at hf
      rcases hf with hf | hf
      · exact msg_inspectStmt s f hf
      · exact msg_inspectStmtList rest f hf

/-- Every finding emitted by the walk carries the constant message:
expression lists. -/
theorem msg_inspectExprList : (es : ExprList) → ∀ f ∈ inspectExprList es, f.msg = deferMessage
  | ExprList.nil => by intro f hf; simp [inspectExprList] at hf
  | ExprList.cons e rest => by
      intro f hf
      simp only [inspectExprList, List.mem_append] at hf
      rcases hf with hf | hf
      · exact msg_inspectExpr e f hf
      · exact msg_inspectExprList rest f hf

/-- Every finding emitted by the walk carries the constant message:
case clauses. -/
theorem msg_inspectCaseList : (cs : CaseList) → ∀ f ∈ inspectCaseList cs, f.msg = deferMessage
  | CaseList.nil => by intro f hf; simp [inspectCaseList] at hf
  | CaseList.cons b rest => by
      intro f hf
      simp only [inspectCaseList, List.mem_append] at hf
      rcases hf with hf | hf
      · exact msg_inspectStmtList b f hf
      · exact msg_inspectCaseList rest f hf

end

/-- Every finding a single declaration contributes carries the constant
message. -/
theorem msg_runDecl (d : FuncDecl) (fs : List Finding) (h : runDecl d = Except.ok fs) :
    ∀ f ∈ fs, f.msg = deferMessage := by
  unfold runDecl at h
  split at h
  · unfold checkDeferInTestFunc at h
    cases hb : d.body with
    | none => rw [hb] at h; cases h
    | some stmts =>
        rw [hb] at h
        injection h with h
        subst h
        exact msg_inspectStmtList stmts
  · injection h with h
    subst h
    intro f hf
    simp at hf

/-- Every finding the whole pass emits carries the constant message. -/
theorem msg_run : (file : List FuncDecl) → ∀ fs, run file = Except.ok fs →
    ∀ f ∈ fs, f.msg = deferMessage
  | [] => by
      intro fs h f hf
      unfold run at h
      injection h with h
      subst h
      simp at hf
  | d :: rest => by
      intro fs h f hf
      unfold run at h
      cases h1 : runDecl d with
      | error e => rw [h1] at h; cases h
      | ok fs1 =>
          rw [h1] at h
          cases h2 : run rest with
          | error e => rw [h2] at h; cases h
          | ok fs2 =>
              rw [h2] at h
              injection h with h
              subst h
              rcases List.mem_append.mp hf with hm | hm
              · exact msg_runDecl d fs1 h1 f hm
              · exact msg_run rest fs2 h2 f hm

/-! ## Claims -/

/-- Claim C1 (counterexample): the claim says a deferred statement inside a
qualifying anonymous literal is reported even when the enclosing declaration
is not a test entry point.  On the code it is not: `Helper` is no entry
point, its body holds a qualifying literal (`hasFuncLitTestingTParam` true)
containing a defer, and the pass reports nothing. -/
theorem c1_counterexample :
    isTestFunction c1HelperDecl = false ∧
    hasFuncLitTestingTParam tParamLitType = true ∧
    run [c1HelperDecl] = Except.ok [] :=
  ⟨rfl, rfl, rfl⟩

/-- Claim C1 (amended): the context-propagation rule is evaluated only for
literals encountered while walking the body of a declaration that itself
qualified; a declaration failing either entry-point test contributes no
findings at all, while inside a walked body a qualifying literal is entered
and its body walked. -/
theorem c1_amended_propagation :
    (∀ d : FuncDecl, isTestFunction d = false ∨ hasTestingTParam d = false →
      runDecl d = Except.ok []) ∧
    (∀ (typ : FuncLitType) (body : StmtList), hasFuncLitTestingTParam typ = true →
      inspectExpr (Expr.funcLit typ body) = inspectStmtList body) := by
  constructor
  · intro d h
    apply runDecl_skip
    rcases h with h | h <;> simp [h]
  · intro typ body h
    simp [inspectExpr, h]

/-- Witness for the amended C1 at concrete inputs. -/
theorem c1_amended_witness :
    runDecl c1HelperDecl = Except.ok [] ∧
    inspectExpr (Expr.funcLit tParamLitType StmtList.nil) = inspectStmtList StmtList.nil :=
  ⟨c1_amended_propagation.1 c1HelperDecl (Or.inl rfl),
   c1_amended_propagation.2 tParamLitType StmtList.nil rfl⟩

/-- Claim C2 (confirmed): a literal classified as not a nested test context
contributes no finding whatever its body holds (even further defers or
qualifying literals), and in any surrounding statement context the walk
proceeds as if the literal were absent. -/
theorem c2_nonqualifying_lit_skipped :
    ∀ (typ : FuncLitType) (body : StmtList), hasFuncLitTestingTParam typ = false →
      inspectExpr (Expr.funcLit typ body) = [] ∧
      ∀ (pre post : StmtList),
        inspectStmtList (StmtList.append pre
          (StmtList.cons (Stmt.exprStmt (Expr.funcLit typ body)) post)) =
        inspectStmtList pre ++ inspectStmtList post := by
  intro typ body h
  have hlit : inspectExpr (Expr.funcLit typ body) = [] := by simp [inspectExpr, h]
  refine ⟨hlit, fun pre post => ?_⟩
  rw [inspectStmtList_append]
  simp [inspectStmtList, inspectStmt, hlit]

/-- Witness for C2: `func() { defer cleanup(); func(t *testing.T) { defer cleanup() } }`
(a parameterless literal holding a defer and even a deeper qualifying
literal) contributes nothing. -/
theorem c2_witness :
    inspectExpr (Expr.funcLit (FuncLitType.params ExprList.nil)
      (StmtList.cons (Stmt.deferStmt 7 cleanupCall)
        (StmtList.cons (Stmt.exprStmt qualifyingLitWithDefer) StmtList.nil))) = [] ∧
    inspectStmtList (StmtList.append StmtList.nil
      (StmtList.cons (Stmt.exprStmt (Expr.funcLit (FuncLitType.params ExprList.nil)
        (StmtList.cons (Stmt.deferStmt 7 cleanupCall) StmtList.nil))) StmtList.nil)) =
      inspectStmtList StmtList.nil ++ inspectStmtList StmtList.nil :=
  ⟨(c2_nonqualifying_lit_skipped (FuncLitType.params ExprList.nil)
      (StmtList.cons (Stmt.deferStmt 7 cleanupCall)
        (StmtList.cons (Stmt.exprStmt qualifyingLitWithDefer) StmtList.nil)) rfl).1,
   (c2_nonqualifying_lit_skipped (FuncLitType.params ExprList.nil)
      (StmtList.cons (Stmt.deferStmt 7 cleanupCall) StmtList.nil) rfl).2
      StmtList.nil StmtList.nil⟩

/-- Claim C3 (confirmed): a declaration's body is walked iff the name rule
and the signature rule of the spec both hold, and a name match with no
qualifying parameter yields no findings. -/
theorem c3_entry_point_iff :
    (∀ d : FuncDecl,
      (isTestFunction d && hasTestingTParam d) = true ↔
        specNameRule d.name ∧ specParamRule d.params) ∧
    (∀ d : FuncDecl, hasTestingTParam d = false → runDecl d = Except.ok []) := by
  constructor
  · intro d
    simp [Bool.and_eq_true, isTestFunction_iff, hasTestingTParam_iff]
  · intro d h
    exact runDecl_skip d (by simp [h])

/-- Witness for C3: `TestWithoutTestingT` (no parameters, a defer in the
body) yields no findings; `TestFoo(t *testing.T)` satisfies both spec
rules. -/
theorem c3_witness :
    runDecl ⟨"TestWithoutTestingT", none,
      some (StmtList.cons (Stmt.deferStmt 1 cleanupCall) StmtList.nil)⟩ = Except.ok [] ∧
    (specNameRule testFooDecl.name ∧ specParamRule testFooDecl.params) :=
  ⟨c3_entry_point_iff.2 _ rfl, (c3_entry_point_iff.1 testFooDecl).mp rfl⟩

/-- Claim C4 (confirmed): the walk of a test-context body emits exactly as
many findings as there are deferred statements reachable through transparent
compound constructs (counting qualifying nested contexts, excluding
non-qualifying literals); a defer wrapped in an if, for or switch-case is
flagged exactly as at top level, and two sequential defers give two
findings. -/
theorem c4_finding_count :
    (∀ body : StmtList, (inspectStmtList body).length = specCountStmtList body) ∧
    (∀ p q : Nat,
      inspectStmtList (StmtList.cons (Stmt.deferStmt p cleanupCall)
        (StmtList.cons (Stmt.deferStmt q cleanupCall) StmtList.nil)) =
      [⟨p, deferMessage⟩, ⟨q, deferMessage⟩]) ∧
    (∀ p : Nat,
      inspectStmt (Stmt.ifStmt (Expr.ident "cond")
          (StmtList.cons (Stmt.deferStmt p cleanupCall) StmtList.nil) StmtList.nil) =
        inspectStmt (Stmt.deferStmt p cleanupCall) ∧
      inspectStmt (Stmt.forStmt (StmtList.cons (Stmt.deferStmt p cleanupCall) StmtList.nil)) =
        inspectStmt (Stmt.deferStmt p cleanupCall) ∧
      inspectStmt (Stmt.switchStmt (CaseList.cons
          (StmtList.cons (Stmt.deferStmt p cleanupCall) StmtList.nil) CaseList.nil)) =
        inspectStmt (Stmt.deferStmt p cleanupCall)) :=
  ⟨length_inspectStmtList, fun _ _ => rfl, fun _ => ⟨rfl, rfl, rfl⟩⟩

/-- Claim C5 (confirmed): a declaration whose name starts with neither
recognized prefix contributes zero findings, whatever its body. -/
theorem c5_unrecognized_name_no_findings :
    ∀ d : FuncDecl, ¬ ("Test".toList <+: d.name.toList) →
      ¬ ("Benchmark".toList <+: d.name.toList) → runDecl d = Except.ok [] := by
  intro d h1 h2
  cases h : isTestFunction d with
  | false => exact runDecl_skip d (by simp [h])
  | true =>
      exfalso
      rcases (isTestFunction_iff d).mp h with ⟨hp, _⟩ | ⟨hp, _⟩
      · exact h1 hp
      · exact h2 hp

/-- Witness for C5: spec scenario F, `func Helper(t *testing.T) { defer cleanup() }`. -/
theorem c5_witness : runDecl helperDeferDecl = Except.ok [] :=
  c5_unrecognized_name_no_findings helperDeferDecl (by decide) (by decide)

/-- Claim C6 (confirmed): spec scenario D — `TestFoo(t *testing.T)` holding
`t.Run("x", func(t *testing.T) { defer cleanup() })` yields exactly one
finding, positioned at the inner defer. -/
theorem c6_subtest_single_finding :
    ∀ pos : Nat, run [subtestDecl pos] = Except.ok [⟨pos, deferMessage⟩] :=
  fun _ => rfl

/-- Claim C7 (confirmed): a name that is exactly the bare prefix is never an
entry point, for any signature and body, and yields zero findings. -/
theorem c7_bare_prefix_not_entry_point :
    ∀ (params : Option ExprList) (body : Option StmtList),
      isTestFunction ⟨"Test", params, body⟩ = false ∧
      isTestFunction ⟨"Benchmark", params, body⟩ = false ∧
      runDecl ⟨"Test", params, body⟩ = Except.ok [] ∧
      runDecl ⟨"Benchmark", params, body⟩ = Except.ok [] :=
  fun _ _ => ⟨rfl, rfl, rfl, rfl⟩

/-- Claim C8 (counterexample): the claim says an absent body is treated as an
empty body and the walk emits zero findings rather than failing; on the code
a qualifying declaration with a nil body is handed to `ast.Inspect`, which
dereferences the nil block (a panic), so the pass fails instead. -/
theorem c8_counterexample :
    run [noBodyDecl] = Except.error nilDereferenceMessage ∧
    run [noBodyDecl] ≠ Except.ok [] :=
  ⟨rfl, fun h => Except.noConfusion h⟩

/-- Claim C8 (amended): absent parameter lists are handled defensively (the
signature predicates return false, for declarations and for literals with a
nil type or nil parameter field), but an absent body of a qualifying
declaration is not: the walker dereferences it and the pass fails. -/
theorem c8_amended_defensive :
    (∀ (name : String) (body : Option StmtList),
      hasTestingTParam ⟨name, none, body⟩ = false) ∧
    hasFuncLitTestingTParam FuncLitType.nilType = false ∧
    hasFuncLitTestingTParam FuncLitType.nilParams = false ∧
    (∀ d : FuncDecl, d.body = none → (isTestFunction d && hasTestingTParam d) = true →
      runDecl d = Except.error nilDereferenceMessage) := by
  refine ⟨fun name body => rfl, rfl, rfl, ?_⟩
  intro d hb hq
  simp [runDecl, hq, checkDeferInTestFunc, hb]

/-- Witness for the amended C8 at concrete inputs. -/
theorem c8_witness :
    hasTestingTParam ⟨"TestFoo", none, none⟩ = false ∧
    runDecl noBodyDecl = Except.error nilDereferenceMessage :=
  ⟨c8_amended_defensive.1 "TestFoo" none,
   c8_amended_defensive.2.2.2 noBodyDecl rfl rfl⟩

/-- Claim C9 (confirmed): every finding the pass emits carries the one
constant message, with no per-call-site parameterization. -/
theorem c9_constant_message :
    ∀ (file : List FuncDecl) (fs : List Finding), run file = Except.ok fs →
      ∀ f ∈ fs, f.msg = deferMessage :=
  msg_run

/-- Witness for C9: the finding emitted for scenario A carries the constant
message. -/
theorem c9_witness : (Finding.mk 1 deferMessage).msg = deferMessage :=
  c9_constant_message [testFooDecl] [⟨1, deferMessage⟩] rfl ⟨1, deferMessage⟩ (by simp)

/-- Claim C10 (confirmed): the parameter test is purely syntactic — it holds
iff the type is a star over a selector of `T` or `B` from an identifier
literally named `testing`; a non-pointer `testing.T` or a renamed package
identifier never qualifies, and a declaration with no parameter of the
literal shape is never treated as a test context. -/
theorem c10_syntactic_shape :
    (∀ e : Expr, isTestingTBType e = true ↔ specTestContextParamShape e) ∧
    isTestingTBType (Expr.selector (Expr.ident "testing") "T") = false ∧
    (∀ pkg : String, pkg ≠ "testing" →
      isTestingTBType (Expr.star (Expr.selector (Expr.ident pkg) "T")) = false) ∧
    (∀ d : FuncDecl, ¬ specParamRule d.params →
      hasTestingTParam d = false ∧ runDecl d = Except.ok []) := by
  refine ⟨isTestingTBType_iff, rfl, ?_, ?_⟩
  · intro pkg h
    simp [isTestingTBType, h]
  · intro d h
    have hp : hasTestingTParam d = false := by
      cases h0 : hasTestingTParam d with
      | false => rfl
      | true => exact absurd ((hasTestingTParam_iff d).mp h0) h
    exact ⟨hp, runDecl_skip d (by simp [hp])⟩

/-- Witness for C10: a renamed import (`mytesting`) and a non-pointer
`testing.T` parameter do not qualify. -/
theorem c10_witness :
    isTestingTBType (Expr.star (Expr.selector (Expr.ident "mytesting") "T")) = false ∧
    hasTestingTParam ⟨"TestFoo",
      some (ExprList.cons (Expr.selector (Expr.ident "testing") "T") ExprList.nil),
      none⟩ = false :=
  ⟨c10_syntactic_shape.2.2.1 "mytesting" (by decide),
   (c10_syntactic_shape.2.2.2 ⟨"TestFoo",
      some (ExprList.cons (Expr.selector (Expr.ident "testing") "T") ExprList.nil), none⟩
      (by simp [specParamRule, specAnyShape, specTestContextParamShape])).1⟩
